import Mathlib

/-!
Shallow embedding of `pfhedge/stochastic/rough_bergomi.py`
(`generate_rough_bergomi` and its internal tensor computations).

Modelling conventions:
* Machine reals are modelled by `ℝ`; `torch.Tensor` columns become functions
  `ℕ → ℝ` (path index, then time index).
* The randomness consumed by the function is passed in explicitly:
  `dW1 : ℕ → ℕ → ℝ × ℝ` are the bivariate draws of the
  `MultivariateNormal` sampler (one pair per path and per step `0..n_steps-2`)
  and `dW2r : ℕ → ℕ → ℝ` are the raw standard-normal draws of `torch.randn`
  (scaled by `√dt` inside the model, as in the source).
* `torch.nn.functional.conv1d` is modelled by its documented cross-correlation
  semantics (`convOut` below); its precondition that the padding argument is
  nonnegative, and the `MultivariateNormal` constructor's positive-definiteness
  check on the covariance matrix, are the two failure points of the source and
  are reflected in the `Option` result of `generate_rough_bergomi`.
* A separate stream layer (`generateFromStream`) models the order in which the
  two samplers consume a single seeded stream of standard normals.
-/

open Finset

open scoped Classical

noncomputable section

/-- Parameter record of `generate_rough_bergomi`.  `s0`/`v0` are the two
components of `init_state` (the source defaults them to `(1.0, xi)`). -/
structure RBParams where
  n_paths : ℕ
  n_steps : ℕ
  s0 : ℝ
  v0 : ℝ
  alpha : ℝ
  rho : ℝ
  eta : ℝ
  xi : ℝ
  dt : ℝ

/-- Source: `discrete_TBSS_fn = lambda k, a: ((k**(a+1) - (k-1)**(a+1))/(a+1))**(1/a)`. -/
def discrete_TBSS_fn (a k : ℝ) : ℝ :=
  ((k ^ (a + 1) - (k - 1) ^ (a + 1)) / (a + 1)) ^ (1 / a)

/-- Source: `_gamma = (discrete_TBSS_fn(arange(2, n_steps), alpha) / (n_steps-1)) ** alpha`
followed by `cat([zeros(2), _gamma])`.  The list has `2 + (T-2)` entries. -/
def gammaList (a : ℝ) (T : ℕ) : List ℝ :=
  [0, 0] ++ (List.range (T - 2)).map
    (fun j : ℕ => (discrete_TBSS_fn a ((j : ℝ) + 2) / ((T : ℝ) - 1)) ^ a)

/-- Closed form of the entry of `gammaList` at a given index (0 off the end). -/
def gammaAt (a : ℝ) (T k : ℕ) : ℝ :=
  if 2 ≤ k ∧ k < T then (discrete_TBSS_fn a (k : ℝ) / ((T : ℝ) - 1)) ^ a else 0

/-- Source: `_gamma.__reversed__()` used as the conv1d input, with zero padding
outside its support (the padded read of the conv1d input at offset `j`). -/
def convInput (a : ℝ) (T : ℕ) (j : ℤ) : ℝ :=
  if 0 ≤ j ∧ j < ((gammaList a T).reverse.length : ℤ) then
    (gammaList a T).reverse.getD j.toNat 0
  else 0

/-- Source: `torch.nn.functional.conv1d(_gamma.__reversed__().repeat(1,1,1),
_Xi.unsqueeze(1), padding=_Xi.size(1)-1)`: cross-correlation of the reversed
kernel list with the weight `x` (one path of `_Xi`, length `T-1`), evaluated at
output position `t`; the padding is `(T-1)-1`. -/
def convOut (a : ℝ) (T : ℕ) (x : ℕ → ℝ) (t : ℤ) : ℝ :=
  ∑ m ∈ Finset.range (T - 1), convInput a T (t + (m : ℤ) - ((T : ℤ) - 2)) * x m

/-- Source: `_Xi = dW1[:, :, 0]`. -/
def XiFn (dW1 : ℕ → ℕ → ℝ × ℝ) (p t : ℕ) : ℝ := (dW1 p t).1

/-- Source: `_Y1 = cat([zeros(n_paths,1), dW1[:, :, 1]], dim=-1)`. -/
def Y1fn (dW1 : ℕ → ℕ → ℝ × ℝ) (p i : ℕ) : ℝ :=
  if i = 0 then 0 else (dW1 p (i - 1)).2

/-- Source: `_Y2 = _GXi_convolve[:, arange(-1, -1-n_steps, -1)]`: column `i`
reads the conv1d output at position `(2*T-2) - 1 - i = 2*T - 3 - i`. -/
def Y2fn (P : RBParams) (dW1 : ℕ → ℕ → ℝ × ℝ) (p i : ℕ) : ℝ :=
  convOut P.alpha P.n_steps (XiFn dW1 p) (2 * (P.n_steps : ℤ) - 3 - (i : ℤ))

/-- Source: `Y = sqrt(2*alpha + 1) * (_Y1 + _Y2)`. -/
def Yfn (P : RBParams) (dW1 : ℕ → ℕ → ℝ × ℝ) (p i : ℕ) : ℝ :=
  Real.sqrt (2 * P.alpha + 1) * (Y1fn dW1 p i + Y2fn P dW1 p i)

/-- Source: `dW2 = randn(...); dW2 *= sqrt(dt)`. -/
def dW2fn (P : RBParams) (dW2r : ℕ → ℕ → ℝ) (p t : ℕ) : ℝ :=
  dW2r p t * Real.sqrt P.dt

/-- Source: `dB = rho * dW1[:, :, 0] + sqrt(1 - rho^2) * dW2`. -/
def dBfn (P : RBParams) (dW1 : ℕ → ℕ → ℝ × ℝ) (dW2r : ℕ → ℕ → ℝ) (p t : ℕ) : ℝ :=
  P.rho * (dW1 p t).1 + Real.sqrt (1 - P.rho ^ 2) * dW2fn P dW2r p t

/-- Source: `variance = init_state[1] * exp(eta * Y
- 0.5 * eta^2 * (arange(0, n_steps) * dt) ** (2*alpha + 1))`. -/
def varianceFn (P : RBParams) (dW1 : ℕ → ℕ → ℝ × ℝ) (p i : ℕ) : ℝ :=
  P.v0 * Real.exp (P.eta * Yfn P dW1 p i -
    0.5 * P.eta ^ 2 * ((i : ℝ) * P.dt) ^ (2 * P.alpha + 1))

/-- Source: `_increments = variance[:, :-1].sqrt() * dB - 0.5 * variance[:, :-1] * dt`. -/
def incrementsFn (P : RBParams) (dW1 : ℕ → ℕ → ℝ × ℝ) (dW2r : ℕ → ℕ → ℝ) (p j : ℕ) : ℝ :=
  Real.sqrt (varianceFn P dW1 p j) * dBfn P dW1 dW2r p j -
    0.5 * varianceFn P dW1 p j * P.dt

/-- Source: `log_return = cat([zeros(n_paths,1), cumsum(_increments, dim=1)], dim=-1)`. -/
def logReturnFn (P : RBParams) (dW1 : ℕ → ℕ → ℝ × ℝ) (dW2r : ℕ → ℕ → ℝ) (p i : ℕ) : ℝ :=
  ∑ j ∈ Finset.range i, incrementsFn P dW1 dW2r p j

/-- Source: `prices = init_state[0] * log_return.exp()`. -/
def spotFn (P : RBParams) (dW1 : ℕ → ℕ → ℝ × ℝ) (dW2r : ℕ → ℕ → ℝ) (p i : ℕ) : ℝ :=
  P.s0 * Real.exp (logReturnFn P dW1 dW2r p i)

/-- Source: `_dW1_cov1 = dt ** (alpha + 1) / (alpha + 1)`. -/
def dW1_cov1 (P : RBParams) : ℝ := P.dt ^ (P.alpha + 1) / (P.alpha + 1)

/-- Source: `_dW1_cov2 = dt ** (2*alpha + 1) / (2*alpha + 1)`. -/
def dW1_cov2 (P : RBParams) : ℝ := P.dt ^ (2 * P.alpha + 1) / (2 * P.alpha + 1)

/-- The `MultivariateNormal` constructor Cholesky-factorises
`[[dt, cov1], [cov1, cov2]]` and fails unless it is positive definite,
i.e. unless both leading principal minors are positive. -/
def covMatrixPD (P : RBParams) : Prop :=
  0 < P.dt ∧ 0 < P.dt * dW1_cov2 P - (dW1_cov1 P) ^ 2

/-- The `padding` argument handed to `conv1d`: `_Xi.size(1) - 1`, where
`_Xi.size(1) = n_steps - 1` (a tensor dimension, hence truncated at 0);
the subtraction of 1 is Python integer arithmetic, hence over `ℤ`. -/
def conv1d_padding (P : RBParams) : ℤ := ((P.n_steps - 1 : ℕ) : ℤ) - 1

/-- The embedded `generate_rough_bergomi`.  The two library preconditions the
source can violate are reflected here: the covariance matrix handed to
`MultivariateNormal` must be positive definite (otherwise its Cholesky
factorisation raises), the sample dimension `n_steps - 1` must be nonnegative
(`1 ≤ n_steps`), and the padding handed to `conv1d` must be nonnegative
(conv1d rejects negative padding).  On success it returns the
`(spot, variance)` pair of the source. -/
def generate_rough_bergomi (P : RBParams) (dW1 : ℕ → ℕ → ℝ × ℝ)
    (dW2r : ℕ → ℕ → ℝ) : Option ((ℕ → ℕ → ℝ) × (ℕ → ℕ → ℝ)) :=
  if covMatrixPD P ∧ 1 ≤ P.n_steps ∧ 0 ≤ conv1d_padding P then
    some (spotFn P dW1 dW2r, varianceFn P dW1)
  else none

/-! Stream layer: `torch.manual_seed` fixes a single stream of standard
normals, consumed in order.  `MultivariateNormal.sample([n_paths, n_steps-1])`
first consumes `2 * n_paths * (n_steps-1)` of them in row-major order, mapping
each consecutive pair through the lower Cholesky factor of the covariance
matrix; `torch.randn([n_paths, n_steps-1])` then consumes the next
`n_paths * (n_steps-1)`. -/

/-- Lower Cholesky factor entry `L₁₁` of the covariance matrix. -/
def cholL11 (P : RBParams) : ℝ := Real.sqrt P.dt

/-- Lower Cholesky factor entry `L₂₁` of the covariance matrix. -/
def cholL21 (P : RBParams) : ℝ := dW1_cov1 P / Real.sqrt P.dt

/-- Lower Cholesky factor entry `L₂₂` of the covariance matrix. -/
def cholL22 (P : RBParams) : ℝ :=
  Real.sqrt (dW1_cov2 P - (dW1_cov1 P) ^ 2 / P.dt)

/-- The bivariate draw at `(p, t)`, built from stream entries
`2*(p*(n_steps-1)+t)` and `2*(p*(n_steps-1)+t)+1`. -/
def sample_dW1 (P : RBParams) (raw : ℕ → ℝ) (p t : ℕ) : ℝ × ℝ :=
  (cholL11 P * raw (2 * (p * (P.n_steps - 1) + t)),
   cholL21 P * raw (2 * (p * (P.n_steps - 1) + t)) +
     cholL22 P * raw (2 * (p * (P.n_steps - 1) + t) + 1))

/-- The independent draw at `(p, t)`, read after all bivariate draws:
stream entry `2*n_paths*(n_steps-1) + p*(n_steps-1) + t`. -/
def sample_dW2 (P : RBParams) (raw : ℕ → ℝ) (p t : ℕ) : ℝ :=
  raw (2 * P.n_paths * (P.n_steps - 1) + p * (P.n_steps - 1) + t)

/-- The `(spot, variance)` pair as a function of the seeded stream. -/
def generateFromStream (P : RBParams) (raw : ℕ → ℝ) :
    (ℕ → ℕ → ℝ) × (ℕ → ℕ → ℝ) :=
  (spotFn P (sample_dW1 P raw) (sample_dW2 P raw),
   varianceFn P (sample_dW1 P raw))

/-- Concrete parameter set used by witnesses: 1 path, 2 steps,
`init_state = (1, 1)`, `alpha = -1/4`, `rho = -1/2`, `eta = 1`, `xi = 1`,
`dt = 1`. -/
def P0 : RBParams :=
  { n_paths := 1, n_steps := 2, s0 := 1, v0 := 1, alpha := -(1 / 4),
    rho := -(1 / 2), eta := 1, xi := 1, dt := 1 }

/-- All-zero bivariate draw stream. -/
def zeroDraws : ℕ → ℕ → ℝ × ℝ := fun _ _ => (0, 0)

/-- All-zero independent draw stream. -/
def zeroDraws2 : ℕ → ℕ → ℝ := fun _ _ => 0

/-- Like `P0` but with `init_state = (1, 2)` while `xi = 1`: the second
component of `init_state` differs from `xi`. -/
def P5 : RBParams :=
  { n_paths := 1, n_steps := 2, s0 := 1, v0 := 2, alpha := -(1 / 4),
    rho := -(1 / 2), eta := 1, xi := 1, dt := 1 }

/-- Like `P0` but with the invalid vol-of-vol `eta = -1`. -/
def P6 : RBParams :=
  { n_paths := 1, n_steps := 2, s0 := 1, v0 := 1, alpha := -(1 / 4),
    rho := -(1 / 2), eta := -1, xi := 1, dt := 1 }

/-- Like `P0` but with `alpha = -3/4`, inside the region `alpha ≤ -1/2` where
the covariance matrix has the negative diagonal entry `cov2 < 0`. -/
def P6a : RBParams :=
  { n_paths := 1, n_steps := 2, s0 := 1, v0 := 1, alpha := -(3 / 4),
    rho := -(1 / 2), eta := 1, xi := 1, dt := 1 }

/-- Like `P0` but with `dt = -1`. -/
def P6b : RBParams :=
  { n_paths := 1, n_steps := 2, s0 := 1, v0 := 1, alpha := -(1 / 4),
    rho := -(1 / 2), eta := 1, xi := 1, dt := -1 }

/-- Like `P0` but with `n_steps = 1`. -/
def P7 : RBParams :=
  { n_paths := 1, n_steps := 1, s0 := 1, v0 := 1, alpha := -(1 / 4),
    rho := -(1 / 2), eta := 1, xi := 1, dt := 1 }

/-- Like `P0` but with the boundary correlation `rho = -1`. -/
def P8 : RBParams :=
  { n_paths := 1, n_steps := 2, s0 := 1, v0 := 1, alpha := -(1 / 4),
    rho := -1, eta := 1, xi := 1, dt := 1 }

/-! Basic facts about the kernel list. -/

lemma gammaList_length (a : ℝ) (T : ℕ) : (gammaList a T).length = 2 + (T - 2) := by
  simp [gammaList]; omega

lemma gammaList_getD (a : ℝ) (T k : ℕ) : (gammaList a T).getD k 0 = gammaAt a T k := by
  match k with
  | 0 => simp [gammaList, gammaAt]
  | 1 => simp [gammaList, gammaAt]
  | (k + 2) =>
    have hcons : gammaList a T = 0 :: 0 :: (List.range (T - 2)).map
        (fun j : ℕ => (discrete_TBSS_fn a ((j : ℝ) + 2) / ((T : ℝ) - 1)) ^ a) := rfl
    rw [hcons, List.getD_cons_succ, List.getD_cons_succ]
    by_cases hk : k < T - 2
    · rw [List.getD_eq_getElem _ _ (by simpa using hk)]
      rw [List.getElem_map, List.getElem_range]
      rw [gammaAt, if_pos (by omega)]
      norm_num
    · rw [List.getD_eq_default _ _ (by simpa using hk)]
      rw [gammaAt, if_neg (by omega)]

lemma reverse_getD_of_lt (l : List ℝ) (i : ℕ) (h : i < l.length) :
    l.reverse.getD i 0 = l.getD (l.length - 1 - i) 0 := by
  rw [List.getD_eq_getElem _ _ (by simpa using h)]
  rw [List.getElem_reverse]
  rw [List.getD_eq_getElem _ _ (by omega)]

lemma convInput_eval (a : ℝ) (T : ℕ) (hT : 2 ≤ T) (j : ℤ) :
    convInput a T j =
      if 0 ≤ j ∧ j < (T : ℤ) then gammaAt a T (T - 1 - j.toNat) else 0 := by
  have hlen2 : (gammaList a T).length = T := by rw [gammaList_length]; omega
  have hlen : (gammaList a T).reverse.length = T := by
    rw [List.length_reverse, hlen2]
  rw [convInput, hlen]
  by_cases h : 0 ≤ j ∧ j < (T : ℤ)
  · rw [if_pos h, if_pos h]
    rw [reverse_getD_of_lt _ _ (by rw [hlen2]; omega)]
    rw [hlen2, gammaList_getD]
  · rw [if_neg h, if_neg h]

/-- Evaluation of the padded conv1d input read at output position `2T-3-i`,
weight position `m`: it is the kernel entry at offset `i - m` (zero when the
read is off the padded input, i.e. when `m > i`). -/
lemma convTerm_eval (a : ℝ) (T i m : ℕ) (hT : 2 ≤ T) (hi : i < T) (hm : m < T - 1) :
    convInput a T (2 * (T : ℤ) - 3 - (i : ℤ) + (m : ℤ) - ((T : ℤ) - 2)) =
      if m ≤ i then gammaAt a T (i - m) else 0 := by
  rw [convInput_eval a T hT]
  by_cases hmi : m ≤ i
  · rw [if_pos (by constructor <;> omega), if_pos hmi]
    congr 1
    omega
  · rw [if_neg (by intro hc; omega), if_neg hmi]

/-- The conv1d column gathered into `_Y2` equals the direct causal sum. -/
lemma Y2fn_eq_causal_sum (P : RBParams) (dW1 : ℕ → ℕ → ℝ × ℝ) (p i : ℕ)
    (hT : 2 ≤ P.n_steps) (hi : i < P.n_steps) :
    Y2fn P dW1 p i =
      ∑ j ∈ Finset.range i, gammaAt P.alpha P.n_steps (i - j) * (dW1 p j).1 := by
  rw [Y2fn, convOut]
  have hstep : ∀ m ∈ Finset.range (P.n_steps - 1),
      convInput P.alpha P.n_steps
          (2 * (P.n_steps : ℤ) - 3 - (i : ℤ) + (m : ℤ) - ((P.n_steps : ℤ) - 2)) *
        XiFn dW1 p m =
      if m ≤ i then gammaAt P.alpha P.n_steps (i - m) * (dW1 p m).1 else 0 := by
    intro m hm
    rw [Finset.mem_range] at hm
    rw [convTerm_eval _ _ _ _ hT hi hm]
    by_cases hmi : m ≤ i
    · rw [if_pos hmi, if_pos hmi, XiFn]
    · rw [if_neg hmi, if_neg hmi, zero_mul]
  rw [Finset.sum_congr rfl hstep]
  have hsub : Finset.range i ⊆ Finset.range (P.n_steps - 1) :=
    Finset.range_subset.mpr (by omega)
  have hzero : ∀ m ∈ Finset.range (P.n_steps - 1), m ∉ Finset.range i →
      (if m ≤ i then gammaAt P.alpha P.n_steps (i - m) * (dW1 p m).1 else 0) = 0 := by
    intro m hm hnm
    rw [Finset.mem_range] at hm hnm
    by_cases hmi : m = i
    · subst hmi
      rw [if_pos (le_refl m), Nat.sub_self, gammaAt, if_neg (by omega), zero_mul]
    · rw [if_neg (by omega)]
  refine (Finset.sum_subset hsub hzero).symm.trans (Finset.sum_congr rfl ?_)
  intro j hj
  rw [if_pos (le_of_lt (Finset.mem_range.mp hj))]

/-- The Volterra path vanishes at time index 0. -/
lemma Yfn_at_zero (P : RBParams) (dW1 : ℕ → ℕ → ℝ × ℝ) (p : ℕ) :
    Yfn P dW1 p 0 = 0 := by
  have h1 : Y1fn dW1 p 0 = 0 := by rw [Y1fn, if_pos rfl]
  have h2 : Y2fn P dW1 p 0 = 0 := by
    rw [Y2fn, convOut]
    apply Finset.sum_eq_zero
    intro m hm
    rw [Finset.mem_range] at hm
    have hT : 2 ≤ P.n_steps := by omega
    rw [convTerm_eval _ _ 0 m hT (by omega) hm]
    by_cases hm0 : m = 0
    · subst hm0
      rw [if_pos (le_refl 0), Nat.sub_self, gammaAt, if_neg (by omega), zero_mul]
    · rw [if_neg (by omega), zero_mul]
  rw [Yfn, h1, h2, add_zero, mul_zero]

/-- Claim C3: the conv1d-based convolution term equals the direct causal
weighted sum `Y2[i] = Σ_{j<i} γ[i-j] · ΔW1[j]`; `Y[0] = 0`; and `Y[i]` depends
only on bivariate draws with index strictly less than `i` (no look-ahead). -/
theorem Y2_causal_conv_eq (P : RBParams) (dW1 : ℕ → ℕ → ℝ × ℝ) (p i : ℕ)
    (hT : 2 ≤ P.n_steps) (hi : i < P.n_steps) :
    Y2fn P dW1 p i =
      ∑ j ∈ Finset.range i, (gammaList P.alpha P.n_steps).getD (i - j) 0 * (dW1 p j).1 ∧
    Yfn P dW1 p 0 = 0 ∧
    ∀ dW1' : ℕ → ℕ → ℝ × ℝ, (∀ j, j < i → dW1 p j = dW1' p j) →
      Yfn P dW1 p i = Yfn P dW1' p i := by
  refine ⟨?_, Yfn_at_zero P dW1 p, ?_⟩
  · rw [Y2fn_eq_causal_sum P dW1 p i hT hi]
    exact Finset.sum_congr rfl (fun j hj => by rw [gammaList_getD])
  · intro dW1' hagree
    rw [Yfn, Yfn]
    congr 1
    congr 1
    · rw [Y1fn, Y1fn]
      by_cases hi0 : i = 0
      · rw [if_pos hi0, if_pos hi0]
      · rw [if_neg hi0, if_neg hi0, hagree (i - 1) (by omega)]
    · rw [Y2fn_eq_causal_sum P dW1 p i hT hi, Y2fn_eq_causal_sum P dW1' p i hT hi]
      exact Finset.sum_congr rfl
        (fun j hj => by rw [hagree j (Finset.mem_range.mp hj)])

/-- Witness for claim C3 at the concrete input `P0`, path 0, time index 1. -/
theorem Y2_causal_conv_eq_witness :
    2 ≤ P0.n_steps ∧ 1 < P0.n_steps ∧
    (Y2fn P0 zeroDraws 0 1 =
      ∑ j ∈ Finset.range 1,
        (gammaList P0.alpha P0.n_steps).getD (1 - j) 0 * (zeroDraws 0 j).1 ∧
     Yfn P0 zeroDraws 0 0 = 0 ∧
     ∀ dW1' : ℕ → ℕ → ℝ × ℝ, (∀ j, j < 1 → zeroDraws 0 j = dW1' 0 j) →
       Yfn P0 zeroDraws 0 1 = Yfn P0 dW1' 0 1) :=
  ⟨by norm_num [P0], by norm_num [P0],
   Y2_causal_conv_eq P0 zeroDraws 0 1 (by norm_num [P0]) (by norm_num [P0])⟩

/-- Claim C4 counterexample: at `alpha = -1/4`, `n_steps = 5`, the kernel-weight
sequence built by the source has length 5, not `n_steps - 1 = 4`. -/
theorem gammaList_length_cex :
    ¬ ((gammaList (-(1 / 4) : ℝ) 5).length = 5 - 1) := by
  simp [gammaList]

/-- Claim C4 (amended): the kernel-weight sequence is a deterministic function
of `(alpha, n_steps)`; for `n_steps ≥ 2` it has length `n_steps` (not
`n_steps - 1`); its first two entries are zero; its entry at index
`k = 2 .. n_steps - 1` is `((((k^(a+1) - (k-1)^(a+1)) / (a+1))^(1/a)) /
(n_steps-1))^a`; and it is all zeros when `n_steps < 3`. -/
theorem gammaList_spec_amended (a : ℝ) (T : ℕ) :
    (2 ≤ T → (gammaList a T).length = T) ∧
    (gammaList a T).getD 0 0 = 0 ∧
    (gammaList a T).getD 1 0 = 0 ∧
    (∀ k, 2 ≤ k → k < T →
      (gammaList a T).getD k 0 = (discrete_TBSS_fn a (k : ℝ) / ((T : ℝ) - 1)) ^ a) ∧
    (T < 3 → ∀ k, (gammaList a T).getD k 0 = 0) := by
  refine ⟨fun hT => ?_, ?_, ?_, fun k h2 hT => ?_, fun h3 k => ?_⟩
  · rw [gammaList_length]; omega
  · rw [gammaList_getD, gammaAt, if_neg (by omega)]
  · rw [gammaList_getD, gammaAt, if_neg (by omega)]
  · rw [gammaList_getD, gammaAt, if_pos ⟨h2, hT⟩]
  · rw [gammaList_getD, gammaAt, if_neg (by omega)]

/-- Witness for the amended claim C4 at `alpha = -1/4`, `n_steps = 3` and
`n_steps = 2`. -/
theorem gammaList_spec_witness :
    (2 ≤ 3 ∧ (gammaList (-(1 / 4) : ℝ) 3).length = 3) ∧
    (gammaList (-(1 / 4) : ℝ) 3).getD 2 0 =
      (discrete_TBSS_fn (-(1 / 4)) ((2 : ℕ) : ℝ) / (((3 : ℕ) : ℝ) - 1)) ^ (-(1 / 4) : ℝ) ∧
    (2 < 3 ∧ (gammaList (-(1 / 4) : ℝ) 2).getD 1 0 = 0) :=
  ⟨⟨by norm_num, (gammaList_spec_amended (-(1 / 4)) 3).1 (by norm_num)⟩,
   (gammaList_spec_amended (-(1 / 4)) 3).2.2.2.1 2 (by norm_num) (by norm_num),
   ⟨by norm_num, (gammaList_spec_amended (-(1 / 4)) 2).2.2.2.2 (by norm_num) 1⟩⟩

end

/-! Variance process facts. -/

lemma varianceFn_at_zero (P : RBParams) (dW1 : ℕ → ℕ → ℝ × ℝ) (p : ℕ)
    (ha : -(1 / 2) < P.alpha) : varianceFn P dW1 p 0 = P.v0 := by
  rw [varianceFn, Yfn_at_zero]
  simp [Real.zero_rpow (ne_of_gt (show (0 : ℝ) < 2 * P.alpha + 1 by linarith))]

/-- Claim C5 counterexample: with `init_state = (1, 2)` and `xi = 1`, the
variance at time index 0 is `2 = V0`, not the value `1` given by the claimed
`xi`-based formula. -/
theorem variance_xi_cex :
    ¬ (varianceFn P5 zeroDraws 0 0 =
        P5.xi * Real.exp (P5.eta * Yfn P5 zeroDraws 0 0 -
          0.5 * P5.eta ^ 2 * (((0 : ℕ) : ℝ) * P5.dt) ^ (2 * P5.alpha + 1))) := by
  rw [varianceFn_at_zero P5 zeroDraws 0 (by norm_num [P5]), Yfn_at_zero]
  rw [show ((0 : ℕ) : ℝ) * P5.dt = 0 by norm_num]
  rw [Real.zero_rpow (by norm_num [P5] : 2 * P5.alpha + 1 ≠ 0)]
  norm_num [P5]

/-- Claim C5 (amended): for every parameter set and every path, the variance
output satisfies `variance[i] = V0 * exp(eta * Y[i] - 0.5 * eta^2 *
(i*dt)^(2*alpha+1))` — with the initial variance `V0 = init_state[1]`, not
`xi` — and the `i = 0` entry is exactly `V0`. -/
theorem variance_formula_amended (P : RBParams) (dW1 : ℕ → ℕ → ℝ × ℝ)
    (ha : -(1 / 2) < P.alpha) :
    (∀ p i, varianceFn P dW1 p i =
      P.v0 * Real.exp (P.eta * Yfn P dW1 p i -
        0.5 * P.eta ^ 2 * ((i : ℝ) * P.dt) ^ (2 * P.alpha + 1))) ∧
    (∀ p, varianceFn P dW1 p 0 = P.v0) :=
  ⟨fun _ _ => rfl, fun p => varianceFn_at_zero P dW1 p ha⟩

/-- Witness for the amended claim C5 at the concrete input `P5`. -/
theorem variance_formula_witness :
    -(1 / 2) < P5.alpha ∧
    varianceFn P5 zeroDraws 0 1 =
      P5.v0 * Real.exp (P5.eta * Yfn P5 zeroDraws 0 1 -
        0.5 * P5.eta ^ 2 * (((1 : ℕ) : ℝ) * P5.dt) ^ (2 * P5.alpha + 1)) ∧
    varianceFn P5 zeroDraws 0 0 = P5.v0 :=
  ⟨by norm_num [P5],
   (variance_formula_amended P5 zeroDraws (by norm_num [P5])).1 0 1,
   (variance_formula_amended P5 zeroDraws (by norm_num [P5])).2 0⟩

/-! Success and failure of the embedded call. -/

lemma covMatrixPD_of_alpha (P : RBParams) (hd : 0 < P.dt)
    (ha1 : -(1 / 2) < P.alpha) (ha2 : P.alpha < 0) : covMatrixPD P := by
  refine ⟨hd, ?_⟩
  have h1 : (0 : ℝ) < 2 * P.alpha + 1 := by linarith
  have h2 : (0 : ℝ) < (P.alpha + 1) ^ 2 := by nlinarith
  have hA : (0 : ℝ) < P.dt ^ (2 * P.alpha + 2) := Real.rpow_pos_of_pos hd _
  have ha0 : (0 : ℝ) < P.alpha ^ 2 := by nlinarith
  have hsplit : P.dt ^ (2 * P.alpha + 2) = P.dt ^ (2 * P.alpha + 1) * P.dt := by
    rw [show (2 * P.alpha + 2 : ℝ) = 2 * P.alpha + 1 + 1 by ring]
    rw [Real.rpow_add hd, Real.rpow_one]
  have e1 : P.dt * dW1_cov2 P = P.dt ^ (2 * P.alpha + 2) / (2 * P.alpha + 1) := by
    rw [dW1_cov2, hsplit, ← mul_div_assoc, mul_comm P.dt (P.dt ^ (2 * P.alpha + 1))]
  have e2 : (dW1_cov1 P) ^ 2 = P.dt ^ (2 * P.alpha + 2) / (P.alpha + 1) ^ 2 := by
    rw [dW1_cov1, div_pow, sq (P.dt ^ (P.alpha + 1)), ← Real.rpow_add hd]
    rw [show P.alpha + 1 + (P.alpha + 1) = 2 * P.alpha + 2 by ring]
  have key : P.dt ^ (2 * P.alpha + 2) / (2 * P.alpha + 1) -
      P.dt ^ (2 * P.alpha + 2) / (P.alpha + 1) ^ 2 =
      P.dt ^ (2 * P.alpha + 2) * P.alpha ^ 2 / ((2 * P.alpha + 1) * (P.alpha + 1) ^ 2) := by
    field_simp
    ring
  rw [e1, e2, key]
  exact div_pos (mul_pos hA ha0) (mul_pos h1 h2)

lemma generate_eq_some (P : RBParams) (dW1 : ℕ → ℕ → ℝ × ℝ) (dW2r : ℕ → ℕ → ℝ)
    (hd : 0 < P.dt) (ha1 : -(1 / 2) < P.alpha) (ha2 : P.alpha < 0)
    (hT : 2 ≤ P.n_steps) :
    generate_rough_bergomi P dW1 dW2r =
      some (spotFn P dW1 dW2r, varianceFn P dW1) := by
  rw [generate_rough_bergomi, if_pos]
  exact ⟨covMatrixPD_of_alpha P hd ha1 ha2, by omega, by rw [conv1d_padding]; omega⟩

lemma generate_eq_none_of_dt (P : RBParams) (dW1 : ℕ → ℕ → ℝ × ℝ)
    (dW2r : ℕ → ℕ → ℝ) (hd : P.dt ≤ 0) :
    generate_rough_bergomi P dW1 dW2r = none := by
  rw [generate_rough_bergomi, if_neg]
  intro hc
  exact absurd hc.1.1 (by linarith)

lemma generate_eq_none_of_steps (P : RBParams) (dW1 : ℕ → ℕ → ℝ × ℝ)
    (dW2r : ℕ → ℕ → ℝ) (hT : P.n_steps < 2) :
    generate_rough_bergomi P dW1 dW2r = none := by
  rw [generate_rough_bergomi, if_neg]
  intro hc
  have h3 := hc.2.2
  rw [conv1d_padding] at h3
  omega

/-- For `alpha ≤ -1/2` the call fails: for `alpha < -1/2` the diagonal entry
`cov2 = dt^(2*alpha+1)/(2*alpha+1)` of the covariance matrix is negative (or
`dt ≤ 0` already fails the first minor), and at `alpha = -1/2` the entry is
itself a division by `2*alpha+1 = 0` (so is `cov1` at `alpha = -1`), aborting
the call as well; in the model the division-by-zero convention likewise
falsifies `covMatrixPD`, so the result is `none` throughout this region. -/
lemma generate_eq_none_of_alpha (P : RBParams) (dW1 : ℕ → ℕ → ℝ × ℝ)
    (dW2r : ℕ → ℕ → ℝ) (ha : P.alpha ≤ -(1 / 2)) :
    generate_rough_bergomi P dW1 dW2r = none := by
  rw [generate_rough_bergomi, if_neg]
  rintro ⟨⟨hd, hdet⟩, -⟩
  have hc2 : dW1_cov2 P ≤ 0 := by
    rw [dW1_cov2]
    rcases lt_or_eq_of_le ha with h | h
    · have hpow : 0 < P.dt ^ (2 * P.alpha + 1) := Real.rpow_pos_of_pos hd _
      exact le_of_lt (div_neg_of_pos_of_neg hpow (by linarith))
    · have h0 : 2 * P.alpha + 1 = 0 := by rw [h]; norm_num
      rw [h0, div_zero]
  nlinarith [sq_nonneg (dW1_cov1 P), mul_nonneg (le_of_lt hd) (neg_nonneg.mpr hc2)]

lemma spotFn_at_zero (P : RBParams) (dW1 : ℕ → ℕ → ℝ × ℝ) (dW2r : ℕ → ℕ → ℝ)
    (p : ℕ) : spotFn P dW1 dW2r p 0 = P.s0 := by
  rw [spotFn, logReturnFn]
  simp

/-- Claim C1 counterexample: `n_steps = 1` is inside the claim's stated valid
range (`n_steps ≥ 1`, all other parameters valid), yet the call fails — the
conv1d padding `n_steps - 2` is negative — so no pair is returned at all. -/
theorem generate_initial_state_nsteps_one_cex :
    (1 ≤ P7.n_steps ∧ 0 < P7.dt ∧ -(1 / 2) < P7.alpha ∧ P7.alpha < 0) ∧
    generate_rough_bergomi P7 zeroDraws zeroDraws2 = none :=
  ⟨⟨by norm_num [P7], by norm_num [P7], by norm_num [P7], by norm_num [P7]⟩,
   generate_eq_none_of_steps P7 zeroDraws zeroDraws2 (by norm_num [P7])⟩

/-- Claim C1 (amended): for every valid parameter set with `n_steps ≥ 2` (at
`n_steps = 1` the call fails on the conv1d padding) and every draw stream, the
returned pair satisfies `spot[p, 0] = S0` and `variance[p, 0] = V0` exactly,
for every path `p`. -/
theorem generate_initial_state (P : RBParams) (dW1 : ℕ → ℕ → ℝ × ℝ)
    (dW2r : ℕ → ℕ → ℝ) (hd : 0 < P.dt) (ha1 : -(1 / 2) < P.alpha)
    (ha2 : P.alpha < 0) (hT : 2 ≤ P.n_steps) :
    generate_rough_bergomi P dW1 dW2r =
      some (spotFn P dW1 dW2r, varianceFn P dW1) ∧
    ∀ p, spotFn P dW1 dW2r p 0 = P.s0 ∧ varianceFn P dW1 p 0 = P.v0 :=
  ⟨generate_eq_some P dW1 dW2r hd ha1 ha2 hT,
   fun p => ⟨spotFn_at_zero P dW1 dW2r p, varianceFn_at_zero P dW1 p ha1⟩⟩

/-- Witness for the amended claim C1 at the concrete input `P0`. -/
theorem generate_initial_state_witness :
    (0 < P0.dt ∧ -(1 / 2) < P0.alpha ∧ P0.alpha < 0 ∧ 2 ≤ P0.n_steps) ∧
    (generate_rough_bergomi P0 zeroDraws zeroDraws2 =
       some (spotFn P0 zeroDraws zeroDraws2, varianceFn P0 zeroDraws) ∧
     ∀ p, spotFn P0 zeroDraws zeroDraws2 p 0 = P0.s0 ∧
       varianceFn P0 zeroDraws p 0 = P0.v0) :=
  ⟨⟨by norm_num [P0], by norm_num [P0], by norm_num [P0], by norm_num [P0]⟩,
   generate_initial_state P0 zeroDraws zeroDraws2 (by norm_num [P0])
     (by norm_num [P0]) (by norm_num [P0]) (by norm_num [P0])⟩

/-- Claim C2: for positive initial state, every entry of both outputs is
strictly positive (in the real-number semantics of the model, hence in
particular nonzero and finite). -/
theorem spot_variance_pos (P : RBParams) (dW1 : ℕ → ℕ → ℝ × ℝ)
    (dW2r : ℕ → ℕ → ℝ) (hS : 0 < P.s0) (hV : 0 < P.v0) :
    ∀ p i, 0 < spotFn P dW1 dW2r p i ∧ 0 < varianceFn P dW1 p i := by
  intro p i
  constructor
  · rw [spotFn]
    exact mul_pos hS (Real.exp_pos _)
  · rw [varianceFn]
    exact mul_pos hV (Real.exp_pos _)

/-- Witness for claim C2 at the concrete input `P0`, entry `(0, 0)`. -/
theorem spot_variance_pos_witness :
    (0 < P0.s0 ∧ 0 < P0.v0) ∧
    (0 < spotFn P0 zeroDraws zeroDraws2 0 0 ∧ 0 < varianceFn P0 zeroDraws 0 0) :=
  ⟨⟨by norm_num [P0], by norm_num [P0]⟩,
   spot_variance_pos P0 zeroDraws zeroDraws2 (by norm_num [P0])
     (by norm_num [P0]) 0 0⟩

/-- Claim C6 counterexample: the invalid parameter `eta = -1` (with all other
parameters valid) is accepted: the call returns a complete output instead of
failing with an error. -/
theorem eta_negative_accepted_cex :
    P6.eta < 0 ∧
    generate_rough_bergomi P6 zeroDraws zeroDraws2 =
      some (spotFn P6 zeroDraws zeroDraws2, varianceFn P6 zeroDraws) :=
  ⟨by norm_num [P6],
   generate_eq_some P6 zeroDraws zeroDraws2 (by norm_num [P6])
     (by norm_num [P6]) (by norm_num [P6]) (by norm_num [P6])⟩

/-- Claim C6 (amended): the source performs no explicit parameter validation.
Whatever the values of `rho`, `eta` and `xi`, the call succeeds whenever
`dt > 0`, `-1/2 < alpha < 0` and `n_steps ≥ 2`; failures come only from the
underlying library primitives, and occur whenever `dt ≤ 0` or
`alpha ≤ -1/2` (the covariance matrix handed to `MultivariateNormal` is not
positive definite — for `alpha < -1/2` its diagonal entry `cov2` is negative,
and at `alpha = -1/2` (`cov2`) and `alpha = -1` (`cov1`) the entry itself is
a division by zero — so the failing region is `alpha ≤ -1/2`, strictly larger
than the `alpha ≤ -1` the original claim names), or whenever `n_steps < 2`
(negative `conv1d` padding / negative sample dimension). -/
theorem no_explicit_validation (P : RBParams) (dW1 : ℕ → ℕ → ℝ × ℝ)
    (dW2r : ℕ → ℕ → ℝ) :
    (0 < P.dt → -(1 / 2) < P.alpha → P.alpha < 0 → 2 ≤ P.n_steps →
      generate_rough_bergomi P dW1 dW2r =
        some (spotFn P dW1 dW2r, varianceFn P dW1)) ∧
    (P.dt ≤ 0 → generate_rough_bergomi P dW1 dW2r = none) ∧
    (P.alpha ≤ -(1 / 2) → generate_rough_bergomi P dW1 dW2r = none) ∧
    (P.n_steps < 2 → generate_rough_bergomi P dW1 dW2r = none) :=
  ⟨fun hd ha1 ha2 hT => generate_eq_some P dW1 dW2r hd ha1 ha2 hT,
   fun hd => generate_eq_none_of_dt P dW1 dW2r hd,
   fun ha => generate_eq_none_of_alpha P dW1 dW2r ha,
   fun hT => generate_eq_none_of_steps P dW1 dW2r hT⟩

/-- Witness for the amended claim C6 at the concrete inputs `P6` (`eta = -1`,
success), `P6b` (`dt = -1`), `P6a` (`alpha = -3/4`) and `P7` (`n_steps = 1`). -/
theorem no_explicit_validation_witness :
    (0 < P6.dt ∧ -(1 / 2) < P6.alpha ∧ P6.alpha < 0 ∧ 2 ≤ P6.n_steps) ∧
    generate_rough_bergomi P6 zeroDraws zeroDraws2 =
      some (spotFn P6 zeroDraws zeroDraws2, varianceFn P6 zeroDraws) ∧
    (P6b.dt ≤ 0 ∧ generate_rough_bergomi P6b zeroDraws zeroDraws2 = none) ∧
    (P6a.alpha ≤ -(1 / 2) ∧
      generate_rough_bergomi P6a zeroDraws zeroDraws2 = none) ∧
    (P7.n_steps < 2 ∧ generate_rough_bergomi P7 zeroDraws zeroDraws2 = none) :=
  ⟨⟨by norm_num [P6], by norm_num [P6], by norm_num [P6], by norm_num [P6]⟩,
   (no_explicit_validation P6 zeroDraws zeroDraws2).1 (by norm_num [P6])
     (by norm_num [P6]) (by norm_num [P6]) (by norm_num [P6]),
   ⟨by norm_num [P6b],
    (no_explicit_validation P6b zeroDraws zeroDraws2).2.1 (by norm_num [P6b])⟩,
   ⟨by norm_num [P6a],
    (no_explicit_validation P6a zeroDraws zeroDraws2).2.2.1 (by norm_num [P6a])⟩,
   ⟨by norm_num [P7],
    (no_explicit_validation P7 zeroDraws zeroDraws2).2.2.2 (by norm_num [P7])⟩⟩

/-- Claim C7: at `n_steps = 1` the source hands `conv1d` the negative padding
`n_steps - 2 = -1`, which the library rejects, so the call fails instead of
returning single-column arrays `(S0, V0)`. -/
theorem generate_nsteps_one_fails :
    conv1d_padding P7 < 0 ∧
    generate_rough_bergomi P7 zeroDraws zeroDraws2 = none :=
  ⟨by norm_num [conv1d_padding, P7],
   generate_eq_none_of_steps P7 zeroDraws zeroDraws2 (by norm_num [P7])⟩

/-- Claim C8: at the boundary correlation `rho = -1`, the price driver is
exactly the negated first Gaussian coordinate: the orthogonal
`sqrt(1 - rho^2) * dW2` component vanishes. -/
theorem dB_rho_neg_one (P : RBParams) (dW1 : ℕ → ℕ → ℝ × ℝ)
    (dW2r : ℕ → ℕ → ℝ) (h : P.rho = -1) :
    ∀ p t, dBfn P dW1 dW2r p t = -((dW1 p t).1) := by
  intro p t
  rw [dBfn, h]
  norm_num

/-- Witness for claim C8 at the concrete input `P8` (`rho = -1`). -/
theorem dB_rho_neg_one_witness :
    P8.rho = -1 ∧ dBfn P8 zeroDraws zeroDraws2 0 0 = -((zeroDraws 0 0).1) :=
  ⟨by norm_num [P8], dB_rho_neg_one P8 zeroDraws zeroDraws2 (by norm_num [P8]) 0 0⟩

/-- Claim C10: with the same draws, scaling the initial spot by `c` scales
every spot entry by exactly `c` and leaves every variance entry unchanged. -/
theorem spot_homogeneous_s0 (P : RBParams) (dW1 : ℕ → ℕ → ℝ × ℝ)
    (dW2r : ℕ → ℕ → ℝ) (c : ℝ) (hc : 0 < c) :
    (∀ p i, spotFn { P with s0 := c * P.s0 } dW1 dW2r p i =
      c * spotFn P dW1 dW2r p i) ∧
    (∀ p i, varianceFn { P with s0 := c * P.s0 } dW1 p i =
      varianceFn P dW1 p i) := by
  constructor
  · intro p i
    show c * P.s0 * Real.exp (logReturnFn P dW1 dW2r p i) =
      c * (P.s0 * Real.exp (logReturnFn P dW1 dW2r p i))
    ring
  · intro p i
    rfl

/-- Witness for claim C10 at the concrete input `P0` with `c = 2`. -/
theorem spot_homogeneous_s0_witness :
    0 < (2 : ℝ) ∧
    ((∀ p i, spotFn { P0 with s0 := 2 * P0.s0 } zeroDraws zeroDraws2 p i =
        2 * spotFn P0 zeroDraws zeroDraws2 p i) ∧
     (∀ p i, varianceFn { P0 with s0 := 2 * P0.s0 } zeroDraws p i =
        varianceFn P0 zeroDraws p i)) :=
  ⟨by norm_num, spot_homogeneous_s0 P0 zeroDraws zeroDraws2 2 (by norm_num)⟩

/-! Stream-consumption facts: the output reads only the stream entries the two
samplers consume, in their fixed layout. -/

lemma pathstep_bound (N T1 p t : ℕ) (hp : p < N) (ht : t < T1) :
    p * T1 + t + 1 ≤ N * T1 := by
  calc p * T1 + t + 1 = p * T1 + (t + 1) := by ring
  _ ≤ p * T1 + T1 := Nat.add_le_add_left ht _
  _ = (p + 1) * T1 := by ring
  _ ≤ N * T1 := Nat.mul_le_mul_right _ hp

lemma sample_dW1_congr (P : RBParams) (raw raw' : ℕ → ℝ)
    (h : ∀ k, k < 3 * P.n_paths * (P.n_steps - 1) → raw k = raw' k)
    (p t : ℕ) (hp : p < P.n_paths) (ht : t < P.n_steps - 1) :
    sample_dW1 P raw p t = sample_dW1 P raw' p t := by
  have hx := pathstep_bound P.n_paths (P.n_steps - 1) p t hp ht
  have h3 : 3 * P.n_paths * (P.n_steps - 1) =
      3 * (P.n_paths * (P.n_steps - 1)) := by ring
  have hb0 : 2 * (p * (P.n_steps - 1) + t) < 3 * P.n_paths * (P.n_steps - 1) := by
    rw [h3]
    generalize p * (P.n_steps - 1) = A at hx ⊢
    generalize P.n_paths * (P.n_steps - 1) = M at hx ⊢
    omega
  have hb1 : 2 * (p * (P.n_steps - 1) + t) + 1 <
      3 * P.n_paths * (P.n_steps - 1) := by
    rw [h3]
    generalize p * (P.n_steps - 1) = A at hx ⊢
    generalize P.n_paths * (P.n_steps - 1) = M at hx ⊢
    omega
  rw [sample_dW1, sample_dW1, h _ hb0, h _ hb1]

lemma sample_dW2_congr (P : RBParams) (raw raw' : ℕ → ℝ)
    (h : ∀ k, k < 3 * P.n_paths * (P.n_steps - 1) → raw k = raw' k)
    (p t : ℕ) (hp : p < P.n_paths) (ht : t < P.n_steps - 1) :
    sample_dW2 P raw p t = sample_dW2 P raw' p t := by
  have hx := pathstep_bound P.n_paths (P.n_steps - 1) p t hp ht
  have h3 : 3 * P.n_paths * (P.n_steps - 1) =
      3 * (P.n_paths * (P.n_steps - 1)) := by ring
  have e2 : 2 * P.n_paths * (P.n_steps - 1) =
      2 * (P.n_paths * (P.n_steps - 1)) := by ring
  have hb : 2 * P.n_paths * (P.n_steps - 1) + p * (P.n_steps - 1) + t <
      3 * P.n_paths * (P.n_steps - 1) := by
    rw [h3, e2]
    generalize p * (P.n_steps - 1) = A at hx ⊢
    generalize P.n_paths * (P.n_steps - 1) = M at hx ⊢
    omega
  rw [sample_dW2, sample_dW2, h _ hb]

lemma Y1fn_congr (T : ℕ) (dW1 dW1' : ℕ → ℕ → ℝ × ℝ) (p i : ℕ) (hi : i < T)
    (hagree : ∀ t, t < T - 1 → dW1 p t = dW1' p t) :
    Y1fn dW1 p i = Y1fn dW1' p i := by
  rw [Y1fn, Y1fn]
  by_cases h0 : i = 0
  · rw [if_pos h0, if_pos h0]
  · rw [if_neg h0, if_neg h0, hagree (i - 1) (by omega)]

lemma Y2fn_congr (P : RBParams) (dW1 dW1' : ℕ → ℕ → ℝ × ℝ) (p i : ℕ)
    (hagree : ∀ t, t < P.n_steps - 1 → dW1 p t = dW1' p t) :
    Y2fn P dW1 p i = Y2fn P dW1' p i := by
  rw [Y2fn, Y2fn, convOut, convOut]
  exact Finset.sum_congr rfl
    (fun m hm => by rw [XiFn, XiFn, hagree m (Finset.mem_range.mp hm)])

lemma Yfn_congr (P : RBParams) (dW1 dW1' : ℕ → ℕ → ℝ × ℝ) (p i : ℕ)
    (hi : i < P.n_steps)
    (hagree : ∀ t, t < P.n_steps - 1 → dW1 p t = dW1' p t) :
    Yfn P dW1 p i = Yfn P dW1' p i := by
  rw [Yfn, Yfn, Y1fn_congr P.n_steps dW1 dW1' p i hi hagree,
    Y2fn_congr P dW1 dW1' p i hagree]

lemma varianceFn_congr (P : RBParams) (dW1 dW1' : ℕ → ℕ → ℝ × ℝ) (p i : ℕ)
    (hi : i < P.n_steps)
    (hagree : ∀ t, t < P.n_steps - 1 → dW1 p t = dW1' p t) :
    varianceFn P dW1 p i = varianceFn P dW1' p i := by
  rw [varianceFn, varianceFn, Yfn_congr P dW1 dW1' p i hi hagree]

lemma incrementsFn_congr (P : RBParams) (dW1 dW1' : ℕ → ℕ → ℝ × ℝ)
    (dW2r dW2r' : ℕ → ℕ → ℝ) (p j : ℕ) (hj : j < P.n_steps - 1)
    (hagree : ∀ t, t < P.n_steps - 1 → dW1 p t = dW1' p t)
    (hagree2 : ∀ t, t < P.n_steps - 1 → dW2r p t = dW2r' p t) :
    incrementsFn P dW1 dW2r p j = incrementsFn P dW1' dW2r' p j := by
  rw [incrementsFn, incrementsFn,
    varianceFn_congr P dW1 dW1' p j (by omega) hagree,
    dBfn, dBfn, hagree j hj, dW2fn, dW2fn, hagree2 j hj]

lemma logReturnFn_congr (P : RBParams) (dW1 dW1' : ℕ → ℕ → ℝ × ℝ)
    (dW2r dW2r' : ℕ → ℕ → ℝ) (p i : ℕ) (hi : i < P.n_steps)
    (hagree : ∀ t, t < P.n_steps - 1 → dW1 p t = dW1' p t)
    (hagree2 : ∀ t, t < P.n_steps - 1 → dW2r p t = dW2r' p t) :
    logReturnFn P dW1 dW2r p i = logReturnFn P dW1' dW2r' p i := by
  rw [logReturnFn, logReturnFn]
  exact Finset.sum_congr rfl (fun j hj =>
    incrementsFn_congr P dW1 dW1' dW2r dW2r' p j
      (by have := Finset.mem_range.mp hj; omega) hagree hagree2)

lemma spotFn_congr (P : RBParams) (dW1 dW1' : ℕ → ℕ → ℝ × ℝ)
    (dW2r dW2r' : ℕ → ℕ → ℝ) (p i : ℕ) (hi : i < P.n_steps)
    (hagree : ∀ t, t < P.n_steps - 1 → dW1 p t = dW1' p t)
    (hagree2 : ∀ t, t < P.n_steps - 1 → dW2r p t = dW2r' p t) :
    spotFn P dW1 dW2r p i = spotFn P dW1' dW2r' p i := by
  rw [spotFn, spotFn,
    logReturnFn_congr P dW1 dW1' dW2r dW2r' p i hi hagree hagree2]

/-- Claim C9: the output is a deterministic function of the parameters and the
seeded stream, and it reads the stream only inside the fixed region the two
samplers consume — the `3 * n_paths * (n_steps-1)` standard normals laid out
as all bivariate `MultivariateNormal` draws first, then all `torch.randn`
draws.  Two runs whose streams agree on that region produce identical
`(spot, variance)` outputs entrywise. -/
theorem generate_depends_only_on_consumed_stream (P : RBParams)
    (raw raw' : ℕ → ℝ)
    (h : ∀ k, k < 3 * P.n_paths * (P.n_steps - 1) → raw k = raw' k) :
    ∀ p, p < P.n_paths → ∀ i, i < P.n_steps →
      (generateFromStream P raw).1 p i = (generateFromStream P raw').1 p i ∧
      (generateFromStream P raw).2 p i = (generateFromStream P raw').2 p i := by
  intro p hp i hi
  have hagree : ∀ t, t < P.n_steps - 1 →
      sample_dW1 P raw p t = sample_dW1 P raw' p t :=
    fun t ht => sample_dW1_congr P raw raw' h p t hp ht
  have hagree2 : ∀ t, t < P.n_steps - 1 →
      sample_dW2 P raw p t = sample_dW2 P raw' p t :=
    fun t ht => sample_dW2_congr P raw raw' h p t hp ht
  exact ⟨spotFn_congr P (sample_dW1 P raw) (sample_dW1 P raw')
      (sample_dW2 P raw) (sample_dW2 P raw') p i hi hagree hagree2,
    varianceFn_congr P (sample_dW1 P raw) (sample_dW1 P raw') p i hi hagree⟩

/-- Witness for claim C9 at the concrete input `P0` with the zero stream. -/
theorem generate_depends_only_on_consumed_stream_witness :
    (∀ k, k < 3 * P0.n_paths * (P0.n_steps - 1) →
      (fun _ : ℕ => (0 : ℝ)) k = (fun _ : ℕ => (0 : ℝ)) k) ∧
    0 < P0.n_paths ∧ 0 < P0.n_steps ∧
    ((generateFromStream P0 (fun _ => 0)).1 0 0 =
       (generateFromStream P0 (fun _ => 0)).1 0 0 ∧
     (generateFromStream P0 (fun _ => 0)).2 0 0 =
       (generateFromStream P0 (fun _ => 0)).2 0 0) :=
  ⟨fun _ _ => rfl, by norm_num [P0], by norm_num [P0],
   generate_depends_only_on_consumed_stream P0 (fun _ => 0) (fun _ => 0)
     (fun _ _ => rfl) 0 (by norm_num [P0]) 0 (by norm_num [P0])⟩
